import Mathlib

/-!
Verification of the environment-provisioning orchestrator of the `get-convex/v1`
repository (the `create-v1` CLI, latest version in `src/unnamed/part_006`).

Strings are modelled as `List Char` so that the line-splitting and serialization
behaviour of the persistence-file store can be reasoned about by induction.
External boundaries (the file system, spawned subprocesses, the `dotenv` and
JSON libraries) are modelled at the interface the program relies on; every
function of the program itself is translated directly from the source.
-/

namespace V1

abbrev Str := List Char

/-- The character `{`, written via its code point to keep brace characters out
of string literals. -/
def lbrace : Char := Char.ofNat 123

/-- The character `}`. -/
def rbrace : Char := Char.ofNat 125

/-! ## Value Store: the dotenv persistence-file model

`updateEnvFile` (part_006 lines 71-87) reads a file (missing file = empty
content), parses it with `dotenv.parse`, assigns the key, and writes back
`Object.entries(envConfig).map(([k,v]) => k + "=" + v).join("\n")`.
`dotenv.parse` is an external library; it is modelled at the interface the
spec declares for persistence files (newline-delimited literal `key=value`
lines, first `=` splits, malformed lines ignored individually, a later
duplicate key overrides an earlier one), and the parsed object is modelled as
an insertion-ordered association list, matching JavaScript object semantics
(assignment to an existing key keeps its position, a new key is appended). -/

/-- Split a character list at newline characters. `splitLines [] = [[]]`,
matching `"".split("\n")`. -/
def splitLines : Str → List Str
  | [] => [[]]
  | c :: cs =>
    if c = '\n' then [] :: splitLines cs
    else
      match splitLines cs with
      | [] => [[c]]
      | l :: ls => (c :: l) :: ls

/-- Join lines with newline separators; inverse of `splitLines` on
newline-free lines. Models `Array.prototype.join("\n")`. -/
def joinLines : List Str → Str
  | [] => []
  | [l] => l
  | l :: ls => l ++ '\n' :: joinLines ls

/-- Split a line at its first `=` character: returns the part before and the
part after, or `none` when the line has no `=`. -/
def splitAtEq : Str → Option (Str × Str)
  | [] => none
  | c :: cs =>
    if c = '=' then some ([], cs)
    else
      match splitAtEq cs with
      | some kv => some (c :: kv.1, kv.2)
      | none => none

/-- Parse one line as a `key=value` pair; a line with no `=` or with an empty
key is malformed and ignored. -/
def parseLine (l : Str) : Option (Str × Str) :=
  match splitAtEq l with
  | some kv => if kv.1.isEmpty then none else some kv
  | none => none

/-- JavaScript-object assignment on an insertion-ordered association list:
overwrite in place when the key is present, append otherwise. -/
def setEntry : List (Str × Str) → Str → Str → List (Str × Str)
  | [], key, value => [(key, value)]
  | kv :: rest, key, value =>
    if kv.1 = key then (kv.1, value) :: rest
    else kv :: setEntry rest key value

/-- One step of the parse fold: assign the parsed pair, skip malformed lines. -/
def parseStep (acc : List (Str × Str)) (l : Str) : List (Str × Str) :=
  match parseLine l with
  | some kv => setEntry acc kv.1 kv.2
  | none => acc

/-- Accumulate parsed lines into an object (later duplicate keys override). -/
def parseEntries (lines : List Str) : List (Str × Str) :=
  lines.foldl parseStep []

/-- The `dotenv.parse` model: parse file content into a key/value object. -/
def dotenvParse (content : Str) : List (Str × Str) :=
  parseEntries (splitLines content)

/-- Property lookup on the parsed object (`envConfig[key]`). -/
def lookupKV (key : Str) : List (Str × Str) → Option Str
  | [] => none
  | kv :: rest => if kv.1 = key then some kv.2 else lookupKV key rest

/-- Serialize the object back to file content, one `key=value` line per entry
(part_006 lines 82-84). -/
def envSerialize (m : List (Str × Str)) : Str :=
  joinLines (m.map fun kv => kv.1 ++ '=' :: kv.2)

/-- The pure content transformation performed by `updateEnvFile`
(part_006 lines 71-87): read (`none` = the file does not exist, treated as
empty content by the `catch`), parse, assign, serialize. -/
def newEnvContent (old : Option Str) (key value : Str) : Str :=
  envSerialize (setEntry (dotenvParse (old.getD [])) key value)

/-! ## String utilities used by the CLI -/

/-- JavaScript whitespace test for the characters relevant here (`.trim()`). -/
def isJsWs (c : Char) : Bool :=
  c == ' ' || c == '\t' || c == '\n' || c == '\r'

/-- Model of `String.prototype.trim()`: strip leading and trailing whitespace. -/
def trimChars (s : Str) : Str :=
  ((s.dropWhile isJsWs).reverse.dropWhile isJsWs).reverse

/-- Model of `String.prototype.replace(pat, repl)` with a plain string pattern:
replace the first occurrence of `pat` (the string is unchanged when `pat`
does not occur). -/
def replaceFirst (pat repl : Str) : Str → Str
  | [] => if pat.isEmpty then repl else []
  | c :: cs =>
    if pat.isPrefixOf (c :: cs) then repl ++ List.drop pat.length (c :: cs)
    else c :: replaceFirst pat repl cs

/-- Model of `path.join(a, b)` for the plain relative segments used by the CLI. -/
def pathJoin (a b : Str) : Str := a ++ '/' :: b

/-- The directory `path.join(projectDir, "packages", "backend")`, the working directory for
every backend-related subprocess. -/
def convexDirOf (projectDir : Str) : Str :=
  pathJoin (pathJoin projectDir "packages".toList) "backend".toList

/-- The `{{name}}` placeholder of import/export command templates. -/
def nameTok : Str := "\x7b\x7bname\x7d\x7d".toList

/-- The `{{value}}` placeholder of export command templates. -/
def valueTok : Str := "\x7b\x7bvalue\x7d\x7d".toList

/-! ## Template interpolation

`template.replace(/\x7b\x7b(\w+)\x7d\x7d/g, (_, key) => f(key))` is embedded as
a left-to-right scanner: at each position the regex engine tries to match
`{{`, a non-empty greedy run of word characters, then `}}`; on success the
match is replaced by `f(word)` and scanning resumes after it, on failure the
scanner advances one character. Because word characters are never braces the
greedy word run never needs backtracking, so the scan below — a four-state
machine consuming one character per step, which keeps it structurally
recursive and hence computable by `decide` — implements exactly that. The
only subtlety is a failed match prefix `{{` followed by a third brace: the
scanner then resumes from the second brace (state `inWord []` again), which
the `inWord`/`lbrace` cases below reproduce. -/

/-- The `\w` class of JavaScript regexes: ASCII letters, digits and underscore. -/
def isWordChar (c : Char) : Bool :=
  c.isAlphanum || c == '_'

/-- Scanner state: nothing pending, one `{` pending, `{{word` pending, or
`{{word}` pending. -/
inductive IState where
  | normal : IState
  | seenOne : IState
  | inWord : Str → IState
  | sawClose : Str → IState
deriving DecidableEq

/-- Characters emitted for a pending (unmatched) state at end of input. -/
def flushI : IState → Str
  | .normal => []
  | .seenOne => [lbrace]
  | .inWord w => lbrace :: lbrace :: w
  | .sawClose w => lbrace :: lbrace :: (w ++ [rbrace])

/-- The interpolation scanner; `f` maps a placeholder word to its
replacement. -/
def interpRun (f : Str → Str) : IState → Str → Str
  | st, [] => flushI st
  | .normal, c :: rest =>
    if c = lbrace then interpRun f .seenOne rest
    else c :: interpRun f .normal rest
  | .seenOne, c :: rest =>
    if c = lbrace then interpRun f (.inWord []) rest
    else lbrace :: c :: interpRun f .normal rest
  | .inWord w, c :: rest =>
    if isWordChar c then interpRun f (.inWord (w ++ [c])) rest
    else if c = rbrace then
      if w.isEmpty then lbrace :: lbrace :: rbrace :: interpRun f .normal rest
      else interpRun f (.sawClose w) rest
    else if c = lbrace then
      if w.isEmpty then lbrace :: interpRun f (.inWord []) rest
      else lbrace :: lbrace :: (w ++ interpRun f .seenOne rest)
    else lbrace :: lbrace :: (w ++ (c :: interpRun f .normal rest))
  | .sawClose w, c :: rest =>
    if c = rbrace then f w ++ interpRun f .normal rest
    else if c = lbrace then
      lbrace :: lbrace :: (w ++ (rbrace :: interpRun f .seenOne rest))
    else lbrace :: lbrace :: (w ++ (rbrace :: (c :: interpRun f .normal rest)))

/-- Global `{{key}}` interpolation of `s`, replacing each placeholder by
`f key`. -/
def interp (f : Str → Str) (s : Str) : Str :=
  interpRun f .normal s

/-! ## Configuration data model (part_006 lines 16-50) -/

/-- Model of `interface Project` (a target system): `id`, optional `envFile`,
`exportCommand`, `importCommand`, `ignoreLogs`. -/
structure Project where
  id : Str
  envFile : Option Str
  exportCommand : Option Str
  importCommand : Option Str
  ignoreLogs : Option (List Str)
deriving DecidableEq

/-- Model of `interface EnvVariable`: `name`, `projects` (ordered target ids),
`details`, optional `required`, `defaultValue`, `template`, `info`. -/
structure EnvVariable where
  name : Str
  projects : List Str
  details : Str
  required : Option Bool
  defaultValue : Option Str
  template : Option Str
  info : Option (List Str)
deriving DecidableEq

/-- Model of `interface Values`: the Value Context, a fixed two-field object holding
the computed Convex endpoint URLs. -/
structure Values where
  convexUrl : Str
  convexSiteUrl : Str
deriving DecidableEq

/-- JavaScript truthiness of a `string | undefined` value: `undefined` and
the empty string are falsy. -/
def truthy : Option Str → Bool
  | none => false
  | some s => !s.isEmpty

/-- JavaScript `a || b` on `string | undefined` operands. -/
def jsOr (a b : Option Str) : Option Str :=
  if truthy a then a else b

/-- JavaScript `a || d` where the fallback `d` is a plain string. -/
def jsStrOr (a : Option Str) (d : Str) : Str :=
  match a with
  | some s => if s.isEmpty then d else s
  | none => d

/-- Dynamic property access `values[key as keyof Values]` on the two-field
`Values` object: any key other than the two declared ones is `undefined`. -/
def valuesGet (v : Values) (key : Str) : Option Str :=
  if key = "convexUrl".toList then some v.convexUrl
  else if key = "convexSiteUrl".toList then some v.convexSiteUrl
  else none

/-- The `[key not set]` marker used when interpolating `info` messages. -/
def markerOf (key : Str) : Str :=
  "[".toList ++ key ++ " not set]".toList

/-- Template interpolation of part_006 lines 327-331:
`template.replace(/\x7b\x7b(\w+)\x7d\x7d/g, (_, key) => values[key] || "")`. -/
def interpTemplate (values : Values) (t : Str) : Str :=
  interp (fun key => jsStrOr (valuesGet values key) []) t

/-- Info-message interpolation of part_006 lines 303-306: unset keys render
as the `[key not set]` marker. -/
def processInfoItem (values : Values) (infoItem : Str) : Str :=
  interp (fun key => jsStrOr (valuesGet values key) (markerOf key)) infoItem

/-! ## The external world

The file system and the subprocess runners are the program's only effects.
`files` maps a path to its content (`none` = missing/unreadable, the case
every `readFileSync` call catches); `execCapture` models `execSync` with
captured output (`Except.error` = the command threw / exited non-zero);
`execInherit` models `execSync` with inherited stdio (`false` = it threw);
`dirExists` models `fs.existsSync`; `relativeTo` models
`path.relative(process.cwd(), ·)`. -/
structure World where
  files : Str → Option Str
  execCapture : Str → Str → Except Str Str
  execInherit : Str → Str → Bool
  dirExists : Str → Bool
  relativeTo : Str → Str

/-- Model of `getEnvFileValue` (part_006 lines 158-167): read the env file (a missing
or unreadable file yields `undefined`), parse it, and look the key up. -/
def getEnvFileValue (w : World) (envFile key : Str) : Option Str :=
  match w.files envFile with
  | some content => lookupKV key (dotenvParse content)
  | none => none

/-- Model of `updateEnvFile` (part_006 lines 71-87) as a world transformer: rewrite
the file at `filePath` with the upserted content. -/
def updateEnvFile (w : World) (filePath key value : Str) : World :=
  ⟨fun p => if p = filePath then some (newEnvContent (w.files filePath) key value)
            else w.files p,
   w.execCapture, w.execInherit, w.dirExists, w.relativeTo⟩

/-! ## Value Resolver (part_006 lines 125-156 and 320-332) -/

/-- The loop body of `getExistingValue`, iterating the variable's declared
target ids in order. An unknown id is skipped (`if (!project) continue`);
a file-backed target returns its value when truthy; a command-backed target
runs the import command in `packages/backend` with `{{name}}` substituted and
returns the trimmed output when truthy, while a thrown error is caught,
logged, and resolution continues with the next target. -/
def getExistingValueGo (w : World) (projects : List Project) (v : EnvVariable)
    (projectDir : Str) : List Str → Option Str
  | [] => none
  | projectId :: rest =>
    match projects.find? (fun p => p.id == projectId) with
    | none => getExistingValueGo w projects v projectDir rest
    | some project =>
      if truthy project.envFile then
        let envFilePath := pathJoin projectDir (project.envFile.getD [])
        match getEnvFileValue w envFilePath v.name with
        | some value =>
          if value.isEmpty then getExistingValueGo w projects v projectDir rest
          else some value
        | none => getExistingValueGo w projects v projectDir rest
      else if truthy project.importCommand then
        match w.execCapture (convexDirOf projectDir)
            (replaceFirst nameTok v.name (project.importCommand.getD [])) with
        | Except.ok out =>
          let value := trimChars out
          if value.isEmpty then getExistingValueGo w projects v projectDir rest
          else some value
        | Except.error _ => getExistingValueGo w projects v projectDir rest
      else getExistingValueGo w projects v projectDir rest

/-- Model of `getExistingValue` (part_006 lines 125-156). -/
def getExistingValue (w : World) (projects : List Project) (v : EnvVariable)
    (projectDir : Str) : Option Str :=
  getExistingValueGo w projects v projectDir v.projects

/-- The default-value computation of `setupEnvironment` (part_006 lines
320-332), the spec's `resolveDefault`: the existing value when one was found,
else the interpolated template when `template` is truthy, else
`defaultValue`. -/
def resolveDefault (w : World) (projects : List Project) (v : EnvVariable)
    (values : Values) (projectDir : Str) : Option Str :=
  jsOr (getExistingValue w projects v projectDir)
    (if truthy v.template then some (interpTemplate values (v.template.getD []))
     else v.defaultValue)

/-! ## Propagator (part_006 lines 169-196 and 345-360) -/

/-- Model of `updateProjectValue` (part_006 lines 169-196): a file-backed target gets
an `updateEnvFile` write and reports its relative path; a command-backed
target runs the export command (with `{{name}}`/`{{value}}` substituted,
inherited stdio) whose failure is caught and logged — in either case the
file map is unchanged and `undefined` is reported. -/
def updateProjectValue (w : World) (project : Project) (key value : Str)
    (projectDir : Str) : World × Option Str :=
  if truthy project.envFile then
    let envFilePath := pathJoin projectDir (project.envFile.getD [])
    (updateEnvFile w envFilePath key value, some (w.relativeTo envFilePath))
  else if truthy project.exportCommand then
    let _ := w.execInherit (convexDirOf projectDir)
      (replaceFirst valueTok value (replaceFirst nameTok key
        (project.exportCommand.getD [])))
    (w, none)
  else (w, none)

/-- The propagation loop of `setupEnvironment` (part_006 lines 346-360):
visit every declared target id in order, skipping unknown ids, collecting
the reported file paths. -/
def propagateGo (w : World) (projects : List Project) (key value : Str)
    (projectDir : Str) : List Str → World × List Str
  | [] => (w, [])
  | projectId :: rest =>
    match projects.find? (fun p => p.id == projectId) with
    | none => propagateGo w projects key value projectDir rest
    | some project =>
      let r := updateProjectValue w project key value projectDir
      let r2 := propagateGo r.1 projects key value projectDir rest
      match r.2 with
      | some f => (r2.1, f :: r2.2)
      | none => (r2.1, r2.2)

/-! ## Log Filter (part_006 lines 243-245) -/

/-- Model of `shouldIgnoreLog(message, ignoreLogs = [])`: true when the message starts
with one of the prefixes; an absent `ignoreLogs` defaults to the empty
list. -/
def shouldIgnoreLog (message : Str) (ignoreLogs : Option (List Str)) : Bool :=
  (ignoreLogs.getD []).any fun p => p.isPrefixOf message

/-! ## Endpoint retrieval (part_006 lines 198-240) -/

/-- Strip a literal prefix, returning the remainder on success. -/
def stripLit (lit s : Str) : Option Str :=
  if lit.isPrefixOf s then some (List.drop lit.length s) else none

/-- Drop a (possibly empty) run of whitespace, the `\s*` of the URL regex. -/
def dropWsStar (s : Str) : Str :=
  s.dropWhile fun c => c.isWhitespace

/-- Try to match `"url"\s*:\s*"(https:\/\/[^"]+)"` at the start of `s`,
returning the captured URL. -/
def matchUrlAt (s : Str) : Option Str :=
  (stripLit "\"url\"".toList s).bind fun s1 =>
  (stripLit ":".toList (dropWsStar s1)).bind fun s2 =>
  (stripLit "\"".toList (dropWsStar s2)).bind fun s3 =>
  (stripLit "https://".toList s3).bind fun s4 =>
  let body := s4.takeWhile fun c => !(c == '"')
  match List.drop body.length s4 with
  | c :: _ =>
    if body.isEmpty then none
    else if c = '"' then some ("https://".toList ++ body) else none
  | [] => none

/-- Left-to-right search for the URL regex
(`stdout.match(/"url"\s*:\s*"(https:\/\/[^"]+)"/)`). -/
def searchUrlPattern : Str → Option Str
  | [] => none
  | c :: cs =>
    match matchUrlAt (c :: cs) with
    | some u => some u
    | none => searchUrlPattern cs

/-- The fixed `npx convex function-spec` command. -/
def functionSpecCmd : Str := "npx convex function-spec".toList

/-- Model of `getConvexUrls` (part_006 lines 198-240): a missing backend directory, a
failing `npx convex function-spec` invocation, or output without a matching
URL all yield empty strings (the `throw` inside the `try` is caught by its
own `catch`); on success `convexSiteUrl` is derived by replacing
`convex.cloud` with `convex.site`. -/
def getConvexUrls (w : World) (projectDir : Str) : Values :=
  let convexDir := convexDirOf projectDir
  if w.dirExists convexDir then
    match w.execCapture convexDir functionSpecCmd with
    | Except.error _ => ⟨[], []⟩
    | Except.ok stdout =>
      match searchUrlPattern (trimChars stdout) with
      | none => ⟨[], []⟩
      | some convexUrl =>
        ⟨convexUrl, replaceFirst "convex.cloud".toList "convex.site".toList convexUrl⟩
  else ⟨[], []⟩

/-! ## Task Pipeline / Process Supervisor (part_006 lines 410-640) -/

/-- Outcome of one pipeline task's promise: resolved, or rejected with an
error message. -/
inductive TaskResult where
  | resolved : TaskResult
  | rejected : Str → TaskResult
deriving DecidableEq

/-- The `child.on("exit")` handler of the "Setting up Convex backend" task
(part_006 lines 493-504): every exit code resolves the task; a code other
than `0`/`null` additionally prints the informational "exited as expected"
note (the returned `Bool`). -/
def backendSetupOnExit (code : Option Int) : TaskResult × Bool :=
  if code = some 0 ∨ code = none then (.resolved, false)
  else (.resolved, true)

/-- Decimal rendering of a JavaScript `number | null` exit code for error
messages (`null` interpolates as `"null"`). -/
def codeToStr : Option Int → Str
  | none => "null".toList
  | some i =>
    if i < 0 then '-' :: Nat.toDigits 10 i.natAbs
    else Nat.toDigits 10 i.natAbs

/-- The `child.on("exit")` handler of the "Setting up authentication" task
(part_006 lines 576-584): only exit code `0` resolves; anything else rejects
with `Authentication setup failed with code ...`. -/
def authSetupOnExit (code : Option Int) : TaskResult :=
  if code = some 0 then .resolved
  else .rejected ("Authentication setup failed with code ".toList ++ codeToStr code)

/-- The "Retrieving Convex URL" task (part_006 lines 512-560): a failing
`npx convex function-spec` rejects; `jsonUrl` abstracts the external
`JSON.parse(stdout).url` extraction (`none` = the parse threw or the `url`
property is missing, both of which reject); a falsy url rejects; otherwise
the task resolves and stores the computed URLs in the Value Context. -/
def retrieveConvexUrlTask (execResult : Except Str Str)
    (jsonUrl : Str → Option Str) (values : Values) : TaskResult × Values :=
  match execResult with
  | Except.error e =>
    (.rejected ("Failed to retrieve Convex URL: ".toList ++ e), values)
  | Except.ok stdout =>
    match jsonUrl stdout with
    | none => (.rejected "Convex URL not found in function-spec output".toList, values)
    | some url =>
      if url.isEmpty then
        (.rejected "Convex URL not found in function-spec output".toList, values)
      else
        (.resolved,
         ⟨url, replaceFirst "convex.cloud".toList "convex.site".toList url⟩)

/-- The task loop of `createNewProject` (part_006 lines 626-640): tasks run
strictly in order; the first rejection is caught and the process exits with
status `1` (`some 1`); when every task resolves the loop completes
(`none`). -/
def runPipeline : List TaskResult → Option Nat
  | [] => none
  | TaskResult.resolved :: rest => runPipeline rest
  | TaskResult.rejected _ :: _ => some 1

/-! ## Sample fixtures for concrete evaluations -/

/-- A world with no files, failing subprocesses and missing directories. -/
def emptyWorld : World :=
  ⟨fun _ => none, fun _ _ => Except.error [], fun _ _ => false,
   fun _ => false, fun p => p⟩

/-- A world whose file system holds exactly one file. -/
def worldWithFile (path content : Str) : World :=
  ⟨fun p => if p = path then some content else none,
   fun _ _ => Except.error [], fun _ _ => false, fun _ => false, fun p => p⟩

/-- A sample file-backed target. -/
def projA : Project := ⟨"a".toList, some "a.env".toList, none, none, none⟩

/-- A sample command-backed target with both import and export commands. -/
def projB : Project :=
  ⟨"b".toList, none, some "exp".toList, some "imp".toList, none⟩

/-- A sample variable with no declared targets. -/
def vSample : EnvVariable := ⟨"KEY".toList, [], [], none, none, none, none⟩

/-- A sample variable targeting the file-backed target then the
command-backed one. -/
def vKey : EnvVariable :=
  ⟨"KEY".toList, ["a".toList, "b".toList], [], none, none, none, none⟩

/-- A sample variable with a template over the declared context key
`convexSiteUrl`. -/
def vTemplate : EnvVariable :=
  ⟨"CB_URL".toList, [], [], none, none,
   some "https://\x7b\x7bconvexSiteUrl\x7d\x7d/cb".toList, none⟩

/-- A sample variable with a template over the undeclared context key
`host`. -/
def vHost : EnvVariable :=
  ⟨"CB_URL".toList, [], [], none, none,
   some "https://\x7b\x7bhost\x7d\x7d/cb".toList, none⟩

/-! ## Value Store lemmas: serialization round-trip -/

theorem isPrefixOf_eq_true_iff (l1 l2 : Str) :
    l1.isPrefixOf l2 = true ↔ l1 <+: l2 :=
  List.isPrefixOf_iff_prefix

theorem splitLines_ne_nil (s : Str) : splitLines s ≠ [] := by
  induction s with
  | nil => simp [splitLines]
  | cons c cs ih =>
    simp only [splitLines]
    by_cases h : c = '\n'
    · simp [h]
    · simp only [if_neg h]
      cases h' : splitLines cs with
      | nil => simp
      | cons l ls => simp

theorem no_nl_of_mem_splitLines (s : Str) :
    ∀ l ∈ splitLines s, '\n' ∉ l := by
  induction s with
  | nil =>
    intro l hl
    simp [splitLines] at hl
    simp [hl]
  | cons c cs ih =>
    intro l hl
    simp only [splitLines] at hl
    by_cases h : c = '\n'
    · rw [if_pos h] at hl
      rcases List.mem_cons.mp hl with h1 | h1
      · simp [h1]
      · exact ih l h1
    · rw [if_neg h] at hl
      cases h' : splitLines cs with
      | nil => exact absurd h' (splitLines_ne_nil cs)
      | cons l0 ls =>
        rw [h'] at hl
        rcases List.mem_cons.mp hl with h1 | h1
        · subst h1
          intro hmem
          rcases List.mem_cons.mp hmem with h2 | h2
          · exact h h2.symm
          · exact ih l0 (h' ▸ List.mem_cons_self l0 ls) h2
        · exact ih l (h' ▸ List.mem_cons_of_mem l0 h1)

theorem splitLines_single (l : Str) (h : '\n' ∉ l) : splitLines l = [l] := by
  induction l with
  | nil => rfl
  | cons c cs ih =>
    have hc : c ≠ '\n' := fun hc => h (hc ▸ List.mem_cons_self c cs)
    have hcs : '\n' ∉ cs := fun hm => h (List.mem_cons_of_mem c hm)
    simp only [splitLines, if_neg hc, ih hcs]

theorem splitLines_append_nl (l r : Str) (h : '\n' ∉ l) :
    splitLines (l ++ '\n' :: r) = l :: splitLines r := by
  induction l with
  | nil => simp [splitLines]
  | cons c cs ih =>
    have hc : c ≠ '\n' := fun hc => h (hc ▸ List.mem_cons_self c cs)
    have hcs : '\n' ∉ cs := fun hm => h (List.mem_cons_of_mem c hm)
    rw [List.cons_append, splitLines, if_neg hc, ih hcs]

theorem splitLines_joinLines (ls : List Str) (h0 : ls ≠ [])
    (h : ∀ l ∈ ls, '\n' ∉ l) : splitLines (joinLines ls) = ls := by
  induction ls with
  | nil => exact absurd rfl h0
  | cons l ls ih =>
    cases ls with
    | nil =>
      simp only [joinLines]
      exact splitLines_single l (h l (List.mem_cons_self l []))
    | cons l' ls' =>
      have hl : '\n' ∉ l := h l (List.mem_cons_self _ _)
      have hrest : ∀ x ∈ l' :: ls', '\n' ∉ x :=
        fun x hx => h x (List.mem_cons_of_mem l hx)
      simp only [joinLines, splitLines_append_nl l _ hl,
        ih (by simp) hrest]

theorem splitAtEq_some (l k v : Str) (h : splitAtEq l = some (k, v)) :
    l = k ++ '=' :: v ∧ '=' ∉ k := by
  induction l generalizing k v with
  | nil => simp [splitAtEq] at h
  | cons c cs ih =>
    simp only [splitAtEq] at h
    by_cases hc : c = '='
    · rw [if_pos hc] at h
      obtain ⟨hk, hv⟩ := by simpa using h
      subst hk; subst hv
      simp [hc]
    · rw [if_neg hc] at h
      cases h' : splitAtEq cs with
      | none => rw [h'] at h; simp at h
      | some kv =>
        rw [h'] at h
        obtain ⟨hk, hv⟩ := by simpa using h
        obtain ⟨hcs, hnk⟩ := ih kv.1 kv.2 (by rw [h'])
        subst hk; subst hv
        constructor
        · simp [hcs]
        · intro hm
          rcases List.mem_cons.mp hm with h2 | h2
          · exact hc h2.symm
          · exact hnk h2

theorem splitAtEq_recover (k v : Str) (h : '=' ∉ k) :
    splitAtEq (k ++ '=' :: v) = some (k, v) := by
  induction k with
  | nil => simp [splitAtEq]
  | cons c cs ih =>
    have hc : c ≠ '=' := fun hc => h (hc ▸ List.mem_cons_self c cs)
    have hcs : '=' ∉ cs := fun hm => h (List.mem_cons_of_mem c hm)
    rw [List.cons_append, splitAtEq, if_neg hc, ih hcs]

theorem parseLine_some (l k v : Str) (h : parseLine l = some (k, v)) :
    k ≠ [] ∧ '=' ∉ k ∧ l = k ++ '=' :: v := by
  cases h' : splitAtEq l with
  | none =>
    simp only [parseLine, h'] at h
    exact Option.noConfusion h
  | some kv =>
    obtain ⟨k0, v0⟩ := kv
    simp only [parseLine, h'] at h
    by_cases he : k0.isEmpty
    · rw [if_pos he] at h
      exact Option.noConfusion h
    · rw [if_neg he] at h
      injection h with h2
      injection h2 with hk hv
      subst hk; subst hv
      obtain ⟨hl, hnk⟩ := splitAtEq_some l k0 v0 h'
      exact ⟨fun hnil => by simp [hnil] at he, hnk, hl⟩

theorem parseLine_recover (k v : Str) (hk : k ≠ []) (h : '=' ∉ k) :
    parseLine (k ++ '=' :: v) = some (k, v) := by
  simp only [parseLine, splitAtEq_recover k v h]
  simp [hk]

theorem setEntry_ne_nil (m : List (Str × Str)) (k v : Str) :
    setEntry m k v ≠ [] := by
  cases m with
  | nil => simp [setEntry]
  | cons kv rest =>
    simp only [setEntry]
    by_cases h : kv.1 = k <;> simp [h]

theorem mem_setEntry (m : List (Str × Str)) (k v : Str) :
    ∀ kv ∈ setEntry m k v, kv ∈ m ∨ kv = (k, v) := by
  induction m with
  | nil =>
    intro kv hkv
    simp [setEntry] at hkv
    simp [hkv]
  | cons e rest ih =>
    intro kv hkv
    simp only [setEntry] at hkv
    by_cases h : e.1 = k
    · rw [if_pos h] at hkv
      rcases List.mem_cons.mp hkv with h1 | h1
      · right; rw [h1, h]
      · left; exact List.mem_cons_of_mem e h1
    · rw [if_neg h] at hkv
      rcases List.mem_cons.mp hkv with h1 | h1
      · left; exact h1 ▸ List.mem_cons_self e rest
      · rcases ih kv h1 with h2 | h2
        · left; exact List.mem_cons_of_mem e h2
        · right; exact h2

theorem lookupKV_setEntry_self (m : List (Str × Str)) (k v : Str) :
    lookupKV k (setEntry m k v) = some v := by
  induction m with
  | nil => simp [setEntry, lookupKV]
  | cons e rest ih =>
    simp only [setEntry]
    by_cases h : e.1 = k
    · simp [lookupKV, h]
    · simp [lookupKV, h, ih]

theorem lookupKV_setEntry_ne (m : List (Str × Str)) (k v k' : Str)
    (h : k' ≠ k) : lookupKV k' (setEntry m k v) = lookupKV k' m := by
  induction m with
  | nil => simp [setEntry, lookupKV, Ne.symm h]
  | cons e rest ih =>
    by_cases he : e.1 = k
    · have he' : e.1 ≠ k' := fun hh => h (hh.symm.trans he)
      simp [setEntry, he, lookupKV, he', Ne.symm h]
    · simp only [setEntry, if_neg he, lookupKV]
      by_cases he' : e.1 = k'
      · simp [he']
      · simp [he', ih]

theorem setEntry_not_mem (m : List (Str × Str)) (k v : Str)
    (h : k ∉ m.map Prod.fst) : setEntry m k v = m ++ [(k, v)] := by
  induction m with
  | nil => simp [setEntry]
  | cons e rest ih =>
    have he : e.1 ≠ k := by
      intro hh
      exact h (by simp [hh.symm])
    have hrest : k ∉ rest.map Prod.fst := by
      intro hh
      exact h (by simp [hh])
    simp [setEntry, he, ih hrest]

theorem setEntry_setEntry (m : List (Str × Str)) (k v : Str) :
    setEntry (setEntry m k v) k v = setEntry m k v := by
  induction m with
  | nil => simp [setEntry]
  | cons e rest ih =>
    simp only [setEntry]
    by_cases h : e.1 = k
    · simp [setEntry, h]
    · simp [setEntry, h, ih]

theorem mem_keys_setEntry (m : List (Str × Str)) (k v x : Str)
    (h : x ∈ (setEntry m k v).map Prod.fst) :
    x ∈ m.map Prod.fst ∨ x = k := by
  rcases List.mem_map.mp h with ⟨kv, hkv, hx⟩
  rcases mem_setEntry m k v kv hkv with h1 | h1
  · left; exact hx ▸ List.mem_map_of_mem Prod.fst h1
  · right; rw [← hx, h1]

theorem nodup_keys_setEntry (m : List (Str × Str)) (k v : Str)
    (h : (m.map Prod.fst).Nodup) :
    ((setEntry m k v).map Prod.fst).Nodup := by
  induction m with
  | nil => simp [setEntry]
  | cons e rest ih =>
    rw [List.map_cons, List.nodup_cons] at h
    by_cases he : e.1 = k
    · rw [setEntry, if_pos he, List.map_cons]
      exact List.nodup_cons.mpr h
    · rw [setEntry, if_neg he, List.map_cons]
      refine List.nodup_cons.mpr ⟨fun hm => ?_, ih h.2⟩
      rcases mem_keys_setEntry rest k v e.1 hm with h1 | h1
      · exact h.1 h1
      · exact he h1

/-- An entry survives the `key=value`-line round trip when its key is
non-empty and free of `=` and newlines, and its value is free of newlines. -/
def wfEntry (kv : Str × Str) : Prop :=
  kv.1 ≠ [] ∧ '=' ∉ kv.1 ∧ '\n' ∉ kv.1 ∧ '\n' ∉ kv.2

/-- All entries of a parsed object are well formed. -/
def wfEntries (m : List (Str × Str)) : Prop :=
  ∀ kv ∈ m, wfEntry kv

theorem wfEntries_setEntry (m : List (Str × Str)) (k v : Str)
    (hm : wfEntries m) (hkv : wfEntry (k, v)) :
    wfEntries (setEntry m k v) := by
  intro kv hkv'
  rcases mem_setEntry m k v kv hkv' with h1 | h1
  · exact hm kv h1
  · exact h1 ▸ hkv

theorem wfEntries_parseStep (acc : List (Str × Str)) (l : Str)
    (hacc : wfEntries acc) (hl : '\n' ∉ l) : wfEntries (parseStep acc l) := by
  rw [parseStep]
  cases h : parseLine l with
  | none => exact hacc
  | some kv =>
    obtain ⟨hk, hnk, hle⟩ := parseLine_some l kv.1 kv.2 (by rw [h])
    refine wfEntries_setEntry acc kv.1 kv.2 hacc ⟨hk, hnk, ?_, ?_⟩
    · intro hm
      exact hl (hle ▸ List.mem_append_left _ hm)
    · intro hm
      exact hl (hle ▸ List.mem_append_right _ (List.mem_cons_of_mem '=' hm))

theorem wfEntries_foldl (lines : List Str) (acc : List (Str × Str))
    (hacc : wfEntries acc) (hl : ∀ l ∈ lines, '\n' ∉ l) :
    wfEntries (lines.foldl parseStep acc) := by
  induction lines generalizing acc with
  | nil => exact hacc
  | cons l ls ih =>
    rw [List.foldl_cons]
    exact ih (parseStep acc l)
      (wfEntries_parseStep acc l hacc (hl l (List.mem_cons_self l ls)))
      (fun x hx => hl x (List.mem_cons_of_mem l hx))

theorem wfEntries_dotenvParse (content : Str) :
    wfEntries (dotenvParse content) :=
  wfEntries_foldl (splitLines content) [] (fun kv hkv => absurd hkv (by simp))
    (no_nl_of_mem_splitLines content)

theorem nodup_keys_parseStep (acc : List (Str × Str)) (l : Str)
    (h : (acc.map Prod.fst).Nodup) : ((parseStep acc l).map Prod.fst).Nodup := by
  rw [parseStep]
  cases parseLine l with
  | none => exact h
  | some kv => exact nodup_keys_setEntry acc kv.1 kv.2 h

theorem nodup_keys_foldl (lines : List Str) (acc : List (Str × Str))
    (h : (acc.map Prod.fst).Nodup) :
    ((lines.foldl parseStep acc).map Prod.fst).Nodup := by
  induction lines generalizing acc with
  | nil => exact h
  | cons l ls ih =>
    rw [List.foldl_cons]
    exact ih (parseStep acc l) (nodup_keys_parseStep acc l h)

theorem nodup_keys_dotenvParse (content : Str) :
    ((dotenvParse content).map Prod.fst).Nodup :=
  nodup_keys_foldl (splitLines content) [] (by simp)

/-- Parsing the serialized lines of a well-formed object appends its entries
to the accumulator unchanged. -/
theorem foldl_parseStep_serialized (m acc : List (Str × Str))
    (hwf : ∀ kv ∈ m, kv.1 ≠ [] ∧ '=' ∉ kv.1)
    (hnd : (m.map Prod.fst).Nodup)
    (hdisj : ∀ kv ∈ m, kv.1 ∉ acc.map Prod.fst) :
    (m.map fun kv => kv.1 ++ '=' :: kv.2).foldl parseStep acc = acc ++ m := by
  induction m generalizing acc with
  | nil => simp
  | cons kv m' ih =>
    rw [List.map_cons, List.foldl_cons]
    obtain ⟨hk, hnk⟩ := hwf kv (List.mem_cons_self kv m')
    have hstep : parseStep acc (kv.1 ++ '=' :: kv.2) = acc ++ [kv] := by
      rw [parseStep, parseLine_recover kv.1 kv.2 hk hnk]
      show setEntry acc kv.1 kv.2 = acc ++ [kv]
      rw [setEntry_not_mem acc kv.1 kv.2 (hdisj kv (List.mem_cons_self kv m'))]
    rw [hstep]
    rw [List.map_cons, List.nodup_cons] at hnd
    have hdisj' : ∀ kv' ∈ m', kv'.1 ∉ (acc ++ [kv]).map Prod.fst := by
      intro kv' hkv' hmem
      rw [List.map_append, List.mem_append] at hmem
      rcases hmem with h1 | h1
      · exact hdisj kv' (List.mem_cons_of_mem kv hkv') h1
      · have : kv'.1 = kv.1 := by simpa using h1
        exact hnd.1 (this ▸ List.mem_map_of_mem Prod.fst hkv')
    rw [ih (acc ++ [kv]) (fun x hx => hwf x (List.mem_cons_of_mem kv hx))
      hnd.2 hdisj']
    simp

/-- The serialization round trip: parsing the serialized form of a non-empty,
well-formed, duplicate-free object gives the object back. -/
theorem dotenvParse_envSerialize (m : List (Str × Str)) (hwf : wfEntries m)
    (hnd : (m.map Prod.fst).Nodup) (hne : m ≠ []) :
    dotenvParse (envSerialize m) = m := by
  have hlines : ∀ l ∈ m.map fun kv => kv.1 ++ '=' :: kv.2, '\n' ∉ l := by
    intro l hl hmem
    rcases List.mem_map.mp hl with ⟨kv, hkv, hleq⟩
    obtain ⟨_, _, hnlk, hnlv⟩ := hwf kv hkv
    rw [← hleq] at hmem
    rcases List.mem_append.mp hmem with h1 | h1
    · exact hnlk h1
    · rcases List.mem_cons.mp h1 with h2 | h2
      · exact absurd h2 (by decide)
      · exact hnlv h2
  rw [dotenvParse, envSerialize,
    splitLines_joinLines _ (by simpa using hne) hlines, parseEntries,
    foldl_parseStep_serialized m [] (fun kv hkv => ⟨(hwf kv hkv).1, (hwf kv hkv).2.1⟩)
      hnd (by simp)]
  simp

/-- The parsed mapping produced by an `updateEnvFile` write, for a
well-formed key/value pair: exactly the old mapping with the key assigned. -/
theorem dotenvParse_newEnvContent (old : Option Str) (K V : Str)
    (hK : K ≠ []) (hKe : '=' ∉ K) (hKn : '\n' ∉ K) (hVn : '\n' ∉ V) :
    dotenvParse (newEnvContent old K V) =
      setEntry (dotenvParse (old.getD [])) K V := by
  rw [newEnvContent]
  exact dotenvParse_envSerialize _
    (wfEntries_setEntry _ K V (wfEntries_dotenvParse _) ⟨hK, hKe, hKn, hVn⟩)
    (nodup_keys_setEntry _ K V (nodup_keys_dotenvParse _))
    (setEntry_ne_nil _ K V)

/-! ## Claim theorems -/

/-- C2 (amended): for every persistence file F (existing or not) and every
single-line key and value — the key non-empty and free of `=` and newlines,
the value free of newlines — after `upsert(F, K, V)` a read of F maps K to V
and maps every other key exactly as F's parsed mapping did before the call.
(As stated for arbitrary keys/values the claim fails, see the
counterexample: the store serializes values verbatim into `key=value` lines,
so a newline inside V splits it across lines.) -/
theorem c2_upsert_read_corrected (w : World) (fpath K V : Str)
    (hK : K ≠ []) (hKe : '=' ∉ K) (hKn : '\n' ∉ K) (hVn : '\n' ∉ V) :
    getEnvFileValue (updateEnvFile w fpath K V) fpath K = some V ∧
    ∀ k, k ≠ K → getEnvFileValue (updateEnvFile w fpath K V) fpath k =
      lookupKV k (dotenvParse ((w.files fpath).getD [])) := by
  have hfile : (updateEnvFile w fpath K V).files fpath
      = some (newEnvContent (w.files fpath) K V) := by
    simp [updateEnvFile]
  have hmain : dotenvParse (newEnvContent (w.files fpath) K V)
      = setEntry (dotenvParse ((w.files fpath).getD [])) K V :=
    dotenvParse_newEnvContent (w.files fpath) K V hK hKe hKn hVn
  refine ⟨?_, fun k hk => ?_⟩
  · simp only [getEnvFileValue, hfile, hmain]
    exact lookupKV_setEntry_self _ K V
  · simp only [getEnvFileValue, hfile, hmain]
    exact lookupKV_setEntry_ne _ K V k hk

/-- Witness for C2: a concrete upsert of `KEY=abc` into a file holding
`OTHER=1` reads back `abc` under `KEY` and leaves `OTHER` at its previous
value. -/
theorem c2_upsert_read_corrected_witness :
    getEnvFileValue
        (updateEnvFile (worldWithFile "f".toList "OTHER=1".toList)
          "f".toList "KEY".toList "abc".toList)
        "f".toList "KEY".toList = some "abc".toList ∧
    getEnvFileValue
        (updateEnvFile (worldWithFile "f".toList "OTHER=1".toList)
          "f".toList "KEY".toList "abc".toList)
        "f".toList "OTHER".toList =
      lookupKV "OTHER".toList
        (dotenvParse (((worldWithFile "f".toList "OTHER=1".toList).files
          "f".toList).getD [])) :=
  ⟨(c2_upsert_read_corrected (worldWithFile "f".toList "OTHER=1".toList)
      "f".toList "KEY".toList "abc".toList
      (by decide) (by decide) (by decide) (by decide)).1,
   (c2_upsert_read_corrected (worldWithFile "f".toList "OTHER=1".toList)
      "f".toList "KEY".toList "abc".toList
      (by decide) (by decide) (by decide) (by decide)).2
     "OTHER".toList (by decide)⟩

/-- Counterexample for C2 as stated: upserting the value `"x\ny"` under key
`A` into a missing file and reading it back yields `"x"`, not `"x\ny"` —
the unquoted serialization splits the value at the newline. -/
theorem c2_upsert_read_counterexample :
    getEnvFileValue
        (updateEnvFile emptyWorld "f".toList "A".toList "x\ny".toList)
        "f".toList "A".toList ≠ some "x\ny".toList := by
  decide

/-- C5 (amended): `upsert` is idempotent for single-line keys and values
(key non-empty, no `=`, no newline; value no newline): a second identical
upsert leaves the serialized file content — and hence its parsed mapping —
unchanged. (As stated for arbitrary values the claim fails, see the
counterexample: a value with an embedded `key=value` newline grows the file
on every run.) -/
theorem c5_upsert_idempotent_corrected (w : World) (fpath K V : Str)
    (hK : K ≠ []) (hKe : '=' ∉ K) (hKn : '\n' ∉ K) (hVn : '\n' ∉ V) :
    (updateEnvFile (updateEnvFile w fpath K V) fpath K V).files fpath
      = (updateEnvFile w fpath K V).files fpath := by
  have hfile : ∀ w' : World, (updateEnvFile w' fpath K V).files fpath
      = some (newEnvContent (w'.files fpath) K V) := by
    intro w'; simp [updateEnvFile]
  have hkey : newEnvContent (some (newEnvContent (w.files fpath) K V)) K V
      = newEnvContent (w.files fpath) K V := by
    have hrt : dotenvParse (newEnvContent (w.files fpath) K V)
        = setEntry (dotenvParse ((w.files fpath).getD [])) K V :=
      dotenvParse_newEnvContent (w.files fpath) K V hK hKe hKn hVn
    rw [newEnvContent, Option.getD_some, hrt, setEntry_setEntry]
    rfl
  rw [hfile, hfile, hkey]

/-- Witness for C5: the concrete upsert `A=xy` into a missing file is
idempotent. -/
theorem c5_upsert_idempotent_corrected_witness :
    (updateEnvFile (updateEnvFile emptyWorld "f".toList "A".toList "xy".toList)
        "f".toList "A".toList "xy".toList).files "f".toList
      = (updateEnvFile emptyWorld "f".toList "A".toList "xy".toList).files
          "f".toList :=
  c5_upsert_idempotent_corrected emptyWorld "f".toList "A".toList "xy".toList
    (by decide) (by decide) (by decide) (by decide)

/-- Counterexample for C5 as stated: upserting `A := "x\nB=y"` twice into a
missing file is not stable — the first write produces `A=x\nB=y`, the second
produces `A=x\nB=y\nB=y`. -/
theorem c5_upsert_idempotent_counterexample :
    (updateEnvFile
        (updateEnvFile emptyWorld "f".toList "A".toList "x\nB=y".toList)
        "f".toList "A".toList "x\nB=y".toList).files "f".toList
      ≠ (updateEnvFile emptyWorld "f".toList "A".toList "x\nB=y".toList).files
          "f".toList := by
  decide

/-- C9 (confirmed): the log filter suppresses a line exactly when the line
starts with at least one of the target's configured prefixes, and a target
with no `ignoreLogs` configured never suppresses anything. -/
theorem c9_log_filter_suppression_iff (message : Str)
    (ignoreLogs : Option (List Str)) :
    (shouldIgnoreLog message ignoreLogs = true ↔
      ∃ p ∈ ignoreLogs.getD [], p <+: message) ∧
    shouldIgnoreLog message none = false := by
  constructor
  · rw [shouldIgnoreLog, List.any_eq_true]
    constructor
    · rintro ⟨p, hp, hpre⟩
      exact ⟨p, hp, (isPrefixOf_eq_true_iff p message).mp hpre⟩
    · rintro ⟨p, hp, hpre⟩
      exact ⟨p, hp, (isPrefixOf_eq_true_iff p message).mpr hpre⟩
  · rfl

/-- C10 (confirmed): a target id that matches no configured target is
silently skipped by both existing-value resolution and propagation — no
error is raised (both functions are total) and the remaining ids are
processed exactly as if the unknown id were absent. -/
theorem c10_unknown_target_skipped (w : World) (projects : List Project)
    (v : EnvVariable) (projectDir key value badId : Str)
    (rest rest' : List Str)
    (hfind : projects.find? (fun p => p.id == badId) = none) :
    getExistingValueGo w projects v projectDir (badId :: rest)
      = getExistingValueGo w projects v projectDir rest ∧
    propagateGo w projects key value projectDir (badId :: rest')
      = propagateGo w projects key value projectDir rest' := by
  constructor
  · rw [getExistingValueGo, hfind]
  · rw [propagateGo, hfind]

/-- Witness for C10 at a concrete unknown id over an empty target list. -/
theorem c10_unknown_target_skipped_witness :
    getExistingValueGo emptyWorld [] vSample "d".toList ["z".toList]
      = getExistingValueGo emptyWorld [] vSample "d".toList [] ∧
    propagateGo emptyWorld [] "K".toList "V".toList "d".toList ["z".toList]
      = propagateGo emptyWorld [] "K".toList "V".toList "d".toList [] :=
  c10_unknown_target_skipped emptyWorld [] vSample "d".toList "K".toList
    "V".toList "z".toList [] [] (by decide)

/-- C7 (confirmed): when a command-backed target's import command throws
(`execSync` error), the error is caught and resolution continues with the
remaining target ids exactly as if that target were absent; the function is
total, so an import failure never aborts the run. -/
theorem c7_import_failure_continues (w : World) (projects : List Project)
    (v : EnvVariable) (projectDir bId : Str) (rest : List Str) (B : Project)
    (cmd e : Str)
    (hfind : projects.find? (fun p => p.id == bId) = some B)
    (hBf : truthy B.envFile = false)
    (hBc : B.importCommand = some cmd) (hcmd : cmd ≠ [])
    (himp : w.execCapture (convexDirOf projectDir)
        (replaceFirst nameTok v.name cmd) = Except.error e) :
    getExistingValueGo w projects v projectDir (bId :: rest)
      = getExistingValueGo w projects v projectDir rest := by
  have hBc' : truthy B.importCommand = true := by
    rw [hBc, truthy]
    simpa using hcmd
  simp [getExistingValueGo, hfind, hBf, hBc', hBc, himp]

/-- Witness for C7: a concrete failing import command on target `b` is
skipped. -/
theorem c7_import_failure_continues_witness :
    getExistingValueGo emptyWorld [projB] vKey "d".toList ["b".toList]
      = getExistingValueGo emptyWorld [projB] vKey "d".toList [] :=
  c7_import_failure_continues emptyWorld [projB] vKey "d".toList "b".toList
    [] projB "imp".toList [] (by decide) (by decide) (by decide)
    (by decide) rfl

/-- C1 (confirmed): existing-value resolution walks the variable's declared
target ids in order; when the first id names a file-backed target whose
persistence file maps the variable's name to a non-empty value, that value
is returned by `resolveDefault` for every possible import-command runner —
i.e. without consulting any later (command-backed) target — and for every
remaining id list. -/
theorem c1_resolution_precedence (w : World) (projects : List Project)
    (v : EnvVariable) (values : Values) (projectDir aId fpath val : Str)
    (rest : List Str) (A : Project)
    (hvar : v.projects = aId :: rest)
    (hfind : projects.find? (fun p => p.id == aId) = some A)
    (hA : A.envFile = some fpath) (hfp : fpath ≠ [])
    (hval : getEnvFileValue w (pathJoin projectDir fpath) v.name = some val)
    (hv : val ≠ []) :
    ∀ cap : Str → Str → Except Str Str,
      resolveDefault ⟨w.files, cap, w.execInherit, w.dirExists, w.relativeTo⟩
        projects v values projectDir = some val := by
  intro cap
  have hA2 : truthy (some fpath) = true := by
    rw [truthy]
    simpa using hfp
  have hvF : val.isEmpty = false := by simpa using hv
  have hval' : getEnvFileValue
      ⟨w.files, cap, w.execInherit, w.dirExists, w.relativeTo⟩
      (pathJoin projectDir fpath) v.name = some val := hval
  have hget : getExistingValue
      ⟨w.files, cap, w.execInherit, w.dirExists, w.relativeTo⟩
      projects v projectDir = some val := by
    rw [getExistingValue, hvar]
    simp [getExistingValueGo, hfind, hA, hA2, hval', hvF]
  have hvt : truthy (some val) = true := by
    rw [truthy]
    simpa using hv
  rw [resolveDefault, hget, jsOr, hvt, if_pos rfl]

/-- Witness for C1 at the spec's scenario: target `a` is file-backed with
`KEY=x` present, target `b` is command-backed and its import would return
`"y"`; resolution returns `"x"`. -/
theorem c1_resolution_precedence_witness :
    resolveDefault
      ⟨(worldWithFile "proj/a.env".toList "KEY=x".toList).files,
       fun _ _ => Except.ok "y".toList,
       (worldWithFile "proj/a.env".toList "KEY=x".toList).execInherit,
       (worldWithFile "proj/a.env".toList "KEY=x".toList).dirExists,
       (worldWithFile "proj/a.env".toList "KEY=x".toList).relativeTo⟩
      [projA, projB] vKey ⟨[], []⟩ "proj".toList = some "x".toList :=
  c1_resolution_precedence (worldWithFile "proj/a.env".toList "KEY=x".toList)
    [projA, projB] vKey ⟨[], []⟩ "proj".toList "a".toList "a.env".toList
    "x".toList ["b".toList] projA rfl (by decide) (by decide) (by decide)
    (by decide) (by decide) (fun _ _ => Except.ok "y".toList)

/-- C4 (confirmed): propagation visits the variable's full target-id list in
order; an export failure on the command-backed target is caught (the
propagation function is total and its file map is unaffected by the export
branch), so a file-backed target is written and reported whether it precedes
or follows the failing target. -/
theorem c4_partial_propagation (w : World) (projects : List Project)
    (key value projectDir aId bId fpath ecmd : Str) (A B : Project)
    (hfA : projects.find? (fun p => p.id == aId) = some A)
    (hA : A.envFile = some fpath) (hfp : fpath ≠ [])
    (hfB : projects.find? (fun p => p.id == bId) = some B)
    (hBf : truthy B.envFile = false)
    (hBe : B.exportCommand = some ecmd) (hec : ecmd ≠ [])
    (_hfail : w.execInherit (convexDirOf projectDir)
        (replaceFirst valueTok value (replaceFirst nameTok key ecmd))
      = false) :
    ((propagateGo w projects key value projectDir [aId, bId]).1.files
        (pathJoin projectDir fpath)
      = some (newEnvContent (w.files (pathJoin projectDir fpath)) key value)) ∧
    (w.relativeTo (pathJoin projectDir fpath)
      ∈ (propagateGo w projects key value projectDir [aId, bId]).2) ∧
    ((propagateGo w projects key value projectDir [bId, aId]).1.files
        (pathJoin projectDir fpath)
      = some (newEnvContent (w.files (pathJoin projectDir fpath)) key value)) ∧
    (w.relativeTo (pathJoin projectDir fpath)
      ∈ (propagateGo w projects key value projectDir [bId, aId]).2) := by
  have hA2 : truthy (some fpath) = true := by
    rw [truthy]
    simpa using hfp
  have hB2 : truthy (some ecmd) = true := by
    rw [truthy]
    simpa using hec
  refine ⟨?_, ?_, ?_, ?_⟩ <;>
    simp [propagateGo, hfA, hfB, updateProjectValue, hA, hA2, hBf, hBe, hB2,
      updateEnvFile]

/-- Witness for C4 at the spec's scenario: variable targets `[a, b]` (and
`[b, a]`), exporting to `b` fails, yet the file of `a` is written and
reported. -/
theorem c4_partial_propagation_witness :
    ((propagateGo emptyWorld [projA, projB] "KEY".toList "v".toList
        "proj".toList ["a".toList, "b".toList]).1.files
        (pathJoin "proj".toList "a.env".toList)
      = some (newEnvContent (emptyWorld.files
          (pathJoin "proj".toList "a.env".toList)) "KEY".toList "v".toList)) ∧
    (emptyWorld.relativeTo (pathJoin "proj".toList "a.env".toList)
      ∈ (propagateGo emptyWorld [projA, projB] "KEY".toList "v".toList
          "proj".toList ["a".toList, "b".toList]).2) ∧
    ((propagateGo emptyWorld [projA, projB] "KEY".toList "v".toList
        "proj".toList ["b".toList, "a".toList]).1.files
        (pathJoin "proj".toList "a.env".toList)
      = some (newEnvContent (emptyWorld.files
          (pathJoin "proj".toList "a.env".toList)) "KEY".toList "v".toList)) ∧
    (emptyWorld.relativeTo (pathJoin "proj".toList "a.env".toList)
      ∈ (propagateGo emptyWorld [projA, projB] "KEY".toList "v".toList
          "proj".toList ["b".toList, "a".toList]).2) :=
  c4_partial_propagation emptyWorld [projA, projB] "KEY".toList "v".toList
    "proj".toList "a".toList "b".toList "a.env".toList "exp".toList projA
    projB (by decide) (by decide) (by decide) (by decide) (by decide)
    (by decide) (by decide) rfl

/-- C6 (amended): when no existing value is found, a truthy (non-empty)
template is interpolated with each `{{key}}` resolved by dynamic lookup on
the two-field Value Context — so only `convexUrl` and `convexSiteUrl` can
ever produce a value and every other key renders as the empty string — and
`defaultValue` is returned exactly when the template is unset (or the empty
string, which JavaScript treats as unset). (The claim's `host` example fails
on the code, see the counterexample: the Value Context cannot hold a `host`
entry.) -/
theorem c6_fallback_template_corrected (w : World) (projects : List Project)
    (v : EnvVariable) (values : Values) (projectDir : Str)
    (hex : getExistingValue w projects v projectDir = none) :
    (∀ t, v.template = some t → t ≠ [] →
      resolveDefault w projects v values projectDir
        = some (interpTemplate values t)) ∧
    (v.template = none →
      resolveDefault w projects v values projectDir = v.defaultValue) ∧
    (v.template = some [] →
      resolveDefault w projects v values projectDir = v.defaultValue) := by
  refine ⟨fun t ht hne => ?_, fun ht => ?_, fun ht => ?_⟩
  · have hF : t.isEmpty = false := by simpa using hne
    simp [resolveDefault, hex, jsOr, truthy, ht, hF]
  · simp [resolveDefault, hex, jsOr, truthy, ht]
  · simp [resolveDefault, hex, jsOr, truthy, ht]

/-- Witness for C6: with template `https://{{convexSiteUrl}}/cb` and a Value
Context whose `convexSiteUrl` is `example.com`, resolution returns
`https://example.com/cb`. -/
theorem c6_fallback_template_corrected_witness :
    resolveDefault emptyWorld [] vTemplate ⟨[], "example.com".toList⟩
      "d".toList = some "https://example.com/cb".toList := by
  have h := (c6_fallback_template_corrected emptyWorld [] vTemplate
    ⟨[], "example.com".toList⟩ "d".toList rfl).1
    "https://\x7b\x7bconvexSiteUrl\x7d\x7d/cb".toList rfl (by decide)
  rw [h]
  decide

/-- Counterexample for C6 as stated: the Value Context is the fixed
two-field `Values` object, so with template `https://{{host}}/cb` the
`host` placeholder renders as the empty string and resolution returns
`https:///cb`, not `https://example.com/cb`, whatever the context holds. -/
theorem c6_fallback_template_counterexample :
    resolveDefault emptyWorld [] vHost
        ⟨"example.com".toList, "example.com".toList⟩ "d".toList
      = some "https:///cb".toList ∧
    resolveDefault emptyWorld [] vHost
        ⟨"example.com".toList, "example.com".toList⟩ "d".toList
      ≠ some "https://example.com/cb".toList := by
  decide

/-- C3 (amended): the backend-setup exit handler resolves its task for every
exit code — a code other than `0`/`null` merely prints an informational note
— so the pipeline always proceeds past it; the authentication-setup exit
handler resolves only on code `0`, and any other code rejects, aborting the
whole run with process exit status 1. (The claim's "any other non-zero code
aborts" fails for the backend-setup task, see the counterexample.) -/
theorem c3_pipeline_exit_codes_corrected (code : Option Int)
    (rest : List TaskResult) :
    (backendSetupOnExit code).1 = TaskResult.resolved ∧
    runPipeline ((backendSetupOnExit code).1 :: rest) = runPipeline rest ∧
    (code = some 0 → authSetupOnExit code = TaskResult.resolved ∧
      runPipeline (authSetupOnExit code :: rest) = runPipeline rest) ∧
    (code ≠ some 0 → runPipeline (authSetupOnExit code :: rest) = some 1) := by
  have hb : (backendSetupOnExit code).1 = TaskResult.resolved := by
    rw [backendSetupOnExit]
    split <;> rfl
  refine ⟨hb, ?_, fun h0 => ?_, fun h0 => ?_⟩
  · rw [hb, runPipeline]
  · have ha : authSetupOnExit code = TaskResult.resolved := by
      rw [authSetupOnExit, if_pos h0]
    exact ⟨ha, by rw [ha, runPipeline]⟩
  · rw [authSetupOnExit, if_neg h0, runPipeline]

/-- Witness for C3: exit code 2 aborts the run when it comes from the
authentication-setup subprocess, and completes the pipeline when it comes
from the backend-setup subprocess. -/
theorem c3_pipeline_exit_codes_corrected_witness :
    runPipeline [authSetupOnExit (some 2)] = some 1 ∧
    runPipeline [(backendSetupOnExit (some 2)).1] = none := by
  have h := c3_pipeline_exit_codes_corrected (some 2) []
  exact ⟨h.2.2.2 (by decide), by rw [h.2.1]; rfl⟩

/-- Counterexample for C3 as stated: the backend-setup subprocess exiting
with the non-expected non-zero code 2 resolves the task and the pipeline
completes (`none`, i.e. no `process.exit 1`), instead of aborting the run. -/
theorem c3_backend_exit_code_counterexample :
    (backendSetupOnExit (some 2)).1 = TaskResult.resolved ∧
    runPipeline [(backendSetupOnExit (some 2)).1, TaskResult.resolved]
      = none ∧
    runPipeline [(backendSetupOnExit (some 2)).1, TaskResult.resolved]
      ≠ some 1 := by
  decide

/-- C8 (amended): when `getConvexUrls` — the endpoint retrieval used by
`setupEnvironment` and by manage-environment mode — cannot run the
function-spec command or finds no URL in its output, both Value Context
entries are set to the empty string instead of the run crashing, and
subsequent info interpolation renders the `[key not set]` marker (template
interpolation the empty string) for those keys. (The pipeline's dedicated
"Retrieving Convex URL" task instead rejects on failure and the run aborts
with exit status 1, see the counterexample.) -/
theorem c8_endpoint_failure_corrected (w : World) (projectDir : Str)
    (h : (∃ e, w.execCapture (convexDirOf projectDir) functionSpecCmd
            = Except.error e)
       ∨ (∃ out, w.execCapture (convexDirOf projectDir) functionSpecCmd
            = Except.ok out ∧ searchUrlPattern (trimChars out) = none)) :
    getConvexUrls w projectDir = ⟨[], []⟩ ∧
    (∀ k, jsStrOr (valuesGet (getConvexUrls w projectDir) k) (markerOf k)
      = markerOf k) ∧
    (∀ k, jsStrOr (valuesGet (getConvexUrls w projectDir) k) [] = []) ∧
    processInfoItem (getConvexUrls w projectDir)
        "Convex URL: \x7b\x7bconvexUrl\x7d\x7d".toList
      = "Convex URL: [convexUrl not set]".toList ∧
    interpTemplate (getConvexUrls w projectDir)
        "\x7b\x7bconvexSiteUrl\x7d\x7d/api/auth".toList
      = "/api/auth".toList := by
  have hurls : getConvexUrls w projectDir = ⟨[], []⟩ := by
    rw [getConvexUrls]
    by_cases hd : w.dirExists (convexDirOf projectDir)
    · rcases h with ⟨e, he⟩ | ⟨out, hok, hnone⟩
      · simp [hd, he]
      · simp [hd, hok, hnone]
    · simp [hd]
  refine ⟨hurls, ?_, ?_, ?_, ?_⟩
  · intro k
    rw [hurls, valuesGet]
    split
    · rfl
    · split
      · rfl
      · rfl
  · intro k
    rw [hurls, valuesGet]
    split
    · rfl
    · split
      · rfl
      · rfl
  · rw [hurls]
    decide
  · rw [hurls]
    decide

/-- Witness for C8: in a world where the function-spec command fails, the
retrieved Value Context is empty and a sample info message renders the
marker. -/
theorem c8_endpoint_failure_corrected_witness :
    getConvexUrls emptyWorld "d".toList = ⟨[], []⟩ ∧
    processInfoItem (getConvexUrls emptyWorld "d".toList)
        "Convex URL: \x7b\x7bconvexUrl\x7d\x7d".toList
      = "Convex URL: [convexUrl not set]".toList := by
  have h := c8_endpoint_failure_corrected emptyWorld "d".toList
    (Or.inl ⟨[], rfl⟩)
  exact ⟨h.1, h.2.2.2.1⟩

/-- Counterexample for C8 as stated: in the bootstrap pipeline a failing
endpoint retrieval does crash the run — the "Retrieving Convex URL" task
rejects and the task loop exits the process with status 1. -/
theorem c8_retrieve_url_task_counterexample :
    (retrieveConvexUrlTask (Except.error "boom".toList) (fun _ => none)
        ⟨[], []⟩).1 ≠ TaskResult.resolved ∧
    runPipeline [(retrieveConvexUrlTask (Except.error "boom".toList)
        (fun _ => none) ⟨[], []⟩).1] = some 1 := by
  decide

end V1
